import Mathlib

set_option maxRecDepth 100000

/-!
Shallow embedding of the TXT record decoder from `src/dns/src/record/txt.rs`
(`impl Wire for TXT`, `TXT::read`), together with the small parts of the
`wire` module it uses (the byte cursor and the error enumeration), and the
UTF-8 lossy conversion (`String::from_utf8_lossy`) used on the accumulated
content bytes.

Wire bytes are modelled as `Fin 256` (the values of Rust's `u8`); the
running total `total_len : u16` is modelled as a `Nat` reduced modulo
`2 ^ 16 = 65536` at each addition, matching release-mode wrapping
semantics of `u16` addition; decoded text is modelled as the list of
Unicode scalar values of the resulting string.
-/

/-- A wire byte: the value space of Rust's `u8`. -/
abbrev Byte := Fin 256

/-- Modelled from the spec: the error taxonomy of the `wire` module
(§7 of the spec), whose source is not under `src/`.  `ioError` is the
insufficient-input failure the cursor produces when a read runs out of
bytes (the source's `WireError::IO`, as pinned by the tests in `txt.rs`);
`WrongLabelLength` is the declared-length-mismatch error carrying the
declared (`expected`) and observed (`got`) values, as constructed at
line 65 of `txt.rs`. -/
inductive WireError where
  | ioError : WireError
  | WrongLabelLength (expected : Nat) (got : Nat) : WireError
deriving DecidableEq, Repr

/-- Modelled from the spec: the cursor's `read_u8` (§4.1 of the spec; the
cursor source is not under `src/`).  The cursor is modelled by the list of
bytes remaining after its current offset: reading one byte succeeds,
yielding the byte and the advanced cursor, exactly when at least one byte
remains. -/
def readU8 : List Byte → Option (Byte × List Byte)
  | [] => none
  | b :: rest => some (b, rest)

/-- The content-reading `for` loop of `TXT::read` (lines 37–39 of
`txt.rs`): read exactly `n` bytes through the cursor, failing if the
input runs out partway. -/
def readBytes : Nat → List Byte → Option (List Byte × List Byte)
  | 0, cs => some ([], cs)
  | n + 1, cs =>
    match readU8 cs with
    | none => none
    | some (b, cs') =>
      match readBytes n cs' with
      | none => none
      | some (bs, cs'') => some (b :: bs, cs'')

/-- The segment `loop` of `TXT::read` (lines 32–47 of `txt.rs`), with an
explicit fuel argument to make the recursion structural.  State: the
cursor (remaining bytes), the byte accumulator `buf`, and the running
total `total_len` (a `u16`, hence reduced modulo `65536` at each
addition).  One iteration reads the length byte `n`, adds `n + 1` to the
running total, reads `n` content bytes, and breaks exactly when
`n < 255`.  Returns the final accumulator, the final running total, and
the remaining cursor; `none` is the cursor's insufficient-input failure. -/
def readTXTLoop : Nat → List Byte → List Byte → Nat → Option (List Byte × Nat × List Byte)
  | 0, _, _, _ => none
  | fuel + 1, cs, buf, total =>
    match readU8 cs with
    | none => none
    | some (n, rest) =>
      let total' := (total + n.val + 1) % 65536
      match readBytes n.val rest with
      | none => none
      | some (bs, rest') =>
        if n.val < 255 then some (buf ++ bs, total', rest')
        else readTXTLoop fuel rest' (buf ++ bs) total'

/-- Whether a byte is a UTF-8 continuation byte (`0x80 ..= 0xBF`). -/
def isUtf8Cont (b : Byte) : Prop := 0x80 ≤ b.val ∧ b.val < 0xC0

instance (b : Byte) : Decidable (isUtf8Cont b) := by
  unfold isUtf8Cont; infer_instance

/-- The payload bits of a UTF-8 continuation byte. -/
def contVal (b : Byte) : Nat := b.val - 0x80

/-- `String::from_utf8_lossy`, fuel-indexed: decode a byte sequence as
UTF-8, emitting the Unicode scalar value of each well-formed sequence and
the replacement character `U+FFFD` for each maximal invalid subpart
(resuming at the first byte that broke the sequence).  Total: never
fails, whatever the bytes. -/
def utf8LossyF : Nat → List Byte → List Nat
  | 0, _ => []
  | _ + 1, [] => []
  | fuel + 1, b0 :: rest =>
    if b0.val < 0x80 then
      b0.val :: utf8LossyF fuel rest
    else if b0.val < 0xC2 then
      0xFFFD :: utf8LossyF fuel rest
    else if b0.val < 0xE0 then
      match rest with
      | [] => [0xFFFD]
      | b1 :: rest' =>
        if isUtf8Cont b1 then
          ((b0.val - 0xC0) * 0x40 + contVal b1) :: utf8LossyF fuel rest'
        else
          0xFFFD :: utf8LossyF fuel rest
    else if b0.val < 0xF0 then
      match rest with
      | [] => [0xFFFD]
      | b1 :: rest' =>
        if (if b0.val = 0xE0 then 0xA0 else 0x80) ≤ b1.val ∧
           b1.val < (if b0.val = 0xED then 0xA0 else 0xC0) then
          match rest' with
          | [] => [0xFFFD]
          | b2 :: rest'' =>
            if isUtf8Cont b2 then
              (((b0.val - 0xE0) * 0x40 + contVal b1) * 0x40 + contVal b2)
                :: utf8LossyF fuel rest''
            else
              0xFFFD :: utf8LossyF fuel rest'
        else
          0xFFFD :: utf8LossyF fuel rest
    else if b0.val < 0xF5 then
      match rest with
      | [] => [0xFFFD]
      | b1 :: rest' =>
        if (if b0.val = 0xF0 then 0x90 else 0x80) ≤ b1.val ∧
           b1.val < (if b0.val = 0xF4 then 0x90 else 0xC0) then
          match rest' with
          | [] => [0xFFFD]
          | b2 :: rest'' =>
            if isUtf8Cont b2 then
              match rest'' with
              | [] => [0xFFFD]
              | b3 :: rest''' =>
                if isUtf8Cont b3 then
                  ((((b0.val - 0xF0) * 0x40 + contVal b1) * 0x40 + contVal b2) * 0x40
                      + contVal b3) :: utf8LossyF fuel rest'''
                else
                  0xFFFD :: utf8LossyF fuel rest''
            else
              0xFFFD :: utf8LossyF fuel rest'
        else
          0xFFFD :: utf8LossyF fuel rest
      else
        0xFFFD :: utf8LossyF fuel rest

/-- `String::from_utf8_lossy(&buf)` (line 56 of `txt.rs`): every step of
`utf8LossyF` consumes at least one byte, so `length + 1` fuel always
suffices. -/
def utf8Lossy (bs : List Byte) : List Nat := utf8LossyF (bs.length + 1) bs

/-- The `TXT` record struct of `txt.rs`: its single field `message`
holds the decoded text, modelled as the list of Unicode scalar values. -/
structure TXT where
  message : List Nat
deriving DecidableEq, Repr

/-- `TXT::read(len, c)` (lines 28–67 of `txt.rs`): run the segment loop
from an empty accumulator and running total `0`, propagating the cursor's
insufficient-input failure; then compare the declared length against the
running total, returning the lossily-decoded accumulator on a match and
the declared-length-mismatch error otherwise.  `len` is the caller's
declared RDATA length (a `u16` value); the cursor starts with the bytes
of `cs` remaining. -/
def TXT.read (len : Nat) (cs : List Byte) : Except WireError TXT :=
  match readTXTLoop (cs.length + 1) cs [] 0 with
  | none => .error .ioError
  | some (buf, total, _) =>
    if len = total then .ok ⟨utf8Lossy buf⟩
    else .error (.WrongLabelLength len total)

/-- The segment encoder from the round-trip property (§8 of the spec):
each content string becomes one length byte followed by its content
bytes, and the segments are concatenated. -/
def encodeTXTSegments (ss : List (List Byte)) : List Byte :=
  (ss.map (fun s => ((s.length : Byte) :: s))).flatten

instance : DecidableEq (Except WireError TXT) := fun a b =>
  match a, b with
  | .ok x, .ok y => decidable_of_iff (x = y) (by simp)
  | .error x, .error y => decidable_of_iff (x = y) (by simp)
  | .ok _, .error _ => isFalse (by simp)
  | .error _, .ok _ => isFalse (by simp)

/-- Reading exactly the length of a prefix returns that prefix and leaves
the rest of the cursor untouched. -/
theorem readBytes_append (s r : List Byte) : readBytes s.length (s ++ r) = some (s, r) := by
  induction s with
  | nil => rfl
  | cons b s ih => simp [readBytes, readU8, ih]

/-- A successful `readBytes` call splits the cursor: the bytes returned
are a prefix of the input of exactly the requested length. -/
theorem readBytes_eq_some {n : Nat} {cs bs r : List Byte}
    (h : readBytes n cs = some (bs, r)) : bs.length = n ∧ cs = bs ++ r := by
  induction n generalizing cs bs r with
  | zero =>
    simp only [readBytes, Option.some.injEq, Prod.mk.injEq] at h
    simp [← h.1, ← h.2]
  | succ n ih =>
    match cs with
    | [] => simp [readBytes, readU8] at h
    | c :: cs' =>
      simp only [readBytes, readU8] at h
      cases hrb : readBytes n cs' with
      | none => rw [hrb] at h; simp at h
      | some p =>
        rw [hrb] at h
        obtain ⟨hlen, hsplit⟩ := ih hrb
        simp only [Option.some.injEq, Prod.mk.injEq] at h
        obtain ⟨hbs, hr⟩ := h
        subst hbs hr
        simp [hlen, hsplit]

/-- The segment loop's result is preserved by any increase of fuel. -/
theorem readTXTLoop_mono {fuel fuel' : Nat} {cs buf : List Byte} {total : Nat}
    {res : List Byte × Nat × List Byte} (hle : fuel ≤ fuel')
    (h : readTXTLoop fuel cs buf total = some res) :
    readTXTLoop fuel' cs buf total = some res := by
  induction fuel generalizing fuel' cs buf total with
  | zero => simp [readTXTLoop] at h
  | succ fuel ih =>
    obtain ⟨fuel'', rfl⟩ : ∃ k, fuel' = k + 1 := ⟨fuel' - 1, by omega⟩
    match cs with
    | [] => simp [readTXTLoop, readU8] at h
    | n :: rest =>
      simp only [readTXTLoop, readU8] at h ⊢
      cases hrb : readBytes n.val rest with
      | none => rw [hrb] at h; simp at h
      | some p =>
        rw [hrb] at h
        by_cases hn : n.val < 255
        · simpa [hn] using h
        · simp only [hn, if_false] at h ⊢
          exact ih (by omega) h

/-- A loop run that consumes its whole cursor gives the same accumulator
and running total on any extension of that cursor, leaving exactly the
extension unread: the loop never looks past the bytes it consumes. -/
theorem readTXTLoop_extend {fuel : Nat} {p buf b : List Byte} {total t : Nat}
    (h : readTXTLoop fuel p buf total = some (b, t, [])) (s : List Byte) :
    readTXTLoop fuel (p ++ s) buf total = some (b, t, s) := by
  induction fuel generalizing p buf total with
  | zero => simp [readTXTLoop] at h
  | succ fuel ih =>
    match p with
    | [] => simp [readTXTLoop, readU8] at h
    | n :: rest =>
      simp only [readTXTLoop, readU8, List.cons_append] at h ⊢
      cases hrb : readBytes n.val rest with
      | none => rw [hrb] at h; simp at h
      | some q =>
        obtain ⟨bs, rest'⟩ := q
        rw [hrb] at h
        obtain ⟨hlen, hsplit⟩ := readBytes_eq_some hrb
        subst hsplit
        have hrb' : readBytes n.val ((bs ++ rest') ++ s) = some (bs, rest' ++ s) := by
          rw [List.append_assoc, ← hlen, readBytes_append]
        rw [hrb']
        by_cases hn : n.val < 255
        · simp only [hn, if_true, Option.some.injEq, Prod.mk.injEq] at h ⊢
          obtain ⟨hb, ht, hrest⟩ := h
          subst hrest
          exact ⟨hb, ht, rfl⟩
        · simp only [hn, if_false] at h ⊢
          exact ih h

/-- One iteration of the segment loop when the length byte terminates
the loop (`n < 255`): the content bytes are appended to the accumulator,
`n + 1` is added to the running total, and the loop breaks. -/
theorem readTXTLoop_break (fuel : Nat) (n : Byte) (rest buf : List Byte) (total : Nat)
    (bs rest' : List Byte) (hrb : readBytes n.val rest = some (bs, rest'))
    (hn : n.val < 255) :
    readTXTLoop (fuel + 1) (n :: rest) buf total =
      some (buf ++ bs, (total + n.val + 1) % 65536, rest') := by
  simp [readTXTLoop, readU8, hrb, hn]

/-- One iteration of the segment loop when the length byte does not
terminate the loop (`n = 255`): the content bytes are appended, `n + 1`
is added to the running total, and the loop continues on the remaining
cursor. -/
theorem readTXTLoop_continue (fuel : Nat) (n : Byte) (rest buf : List Byte) (total : Nat)
    (bs rest' : List Byte) (hrb : readBytes n.val rest = some (bs, rest'))
    (hn : ¬ n.val < 255) :
    readTXTLoop (fuel + 1) (n :: rest) buf total =
      readTXTLoop fuel rest' (buf ++ bs) ((total + n.val + 1) % 65536) := by
  simp [readTXTLoop, readU8, hrb, hn]

/-- A maximal segment: length byte `255` followed by 255 zero content
bytes.  Each such segment adds `256` to the running total and keeps the
loop going. -/
def seg255 : List Byte := (255 : Byte) :: List.replicate 255 0

/-- One loop iteration over a maximal segment: the loop continues on the
remaining cursor with 255 more content bytes accumulated and `256` added
(modulo `2 ^ 16`) to the running total. -/
theorem readTXTLoop_seg255 (fuel : Nat) (rest buf : List Byte) (total : Nat) :
    readTXTLoop (fuel + 1) (seg255 ++ rest) buf total =
      readTXTLoop fuel rest (buf ++ List.replicate 255 0) ((total + 256) % 65536) := by
  have hrb : readBytes (255 : Byte).val (List.replicate 255 (0 : Byte) ++ rest) =
      some (List.replicate 255 0, rest) := by
    have h := readBytes_append (List.replicate 255 (0 : Byte)) rest
    simpa using h
  have hval : ((255 : Byte) : Nat) = 255 := rfl
  rw [hval] at hrb
  simp only [seg255, List.cons_append, readTXTLoop, readU8, hval, lt_irrefl, if_false, hrb]

/-- Running the loop over `k` consecutive maximal segments accumulates
`255 * k` zero bytes and adds `256 * k` to the running total, reduced
modulo `2 ^ 16`. -/
theorem readTXTLoop_replicate_seg255 (k : Nat) : ∀ (fuel : Nat) (rest buf : List Byte)
    (total : Nat), total < 65536 →
    readTXTLoop (k + (fuel + 1)) ((List.replicate k seg255).flatten ++ rest) buf total =
      readTXTLoop (fuel + 1) rest (buf ++ List.replicate (255 * k) 0)
        ((total + 256 * k) % 65536) := by
  induction k with
  | zero =>
    intro fuel rest buf total htotal
    simp [Nat.mod_eq_of_lt htotal]
  | succ k ih =>
    intro fuel rest buf total htotal
    have hstep := readTXTLoop_seg255 (k + (fuel + 1))
      ((List.replicate k seg255).flatten ++ rest) buf total
    have hfuel : k + 1 + (fuel + 1) = (k + (fuel + 1)) + 1 := by omega
    rw [hfuel, List.replicate_succ, List.flatten_cons, List.append_assoc, hstep,
      ih fuel rest _ _ (Nat.mod_lt _ (by omega))]
    have harg : ((total + 256) % 65536 + 256 * k) % 65536 = (total + 256 * (k + 1)) % 65536 := by
      rw [Nat.mod_add_mod]
      congr 1
      ring
    rw [harg, List.append_assoc, ← List.replicate_add]
    congr 2
    ring_nf

/-- The length of `k` concatenated maximal segments. -/
theorem length_flatten_replicate_seg255 (k : Nat) :
    ((List.replicate k seg255).flatten).length = 256 * k := by
  induction k with
  | zero => rfl
  | succ k ih =>
    rw [List.replicate_succ, List.flatten_cons, List.length_append, ih]
    have : seg255.length = 256 := by decide
    rw [this]
    ring

/-- Lossy UTF-8 decoding of a run of zero bytes (fuel-indexed form):
zero is ASCII, so each byte maps to itself. -/
theorem utf8LossyF_replicate_zero (m : Nat) :
    utf8LossyF (m + 1) (List.replicate m (0 : Byte)) = List.replicate m 0 := by
  induction m with
  | zero => rfl
  | succ m ih => simp [List.replicate_succ, utf8LossyF, ih]

/-- Lossy UTF-8 decoding of a run of zero bytes. -/
theorem utf8Lossy_replicate_zero (m : Nat) :
    utf8Lossy (List.replicate m 0) = List.replicate m 0 := by
  unfold utf8Lossy
  rw [List.length_replicate, utf8LossyF_replicate_zero]

/-- Claim C1 (counterexample): the round-trip framing claim fails as
stated.  Take the sequence of two content byte strings `[97]` and
`[98]`, each of length at most 254.  Their encoding is `[1, 97, 1, 98]`,
of total byte count 4, but `TXT::read` with declared length 4 does not
succeed and does not return the concatenated content: the segment loop
breaks at the first segment (its length byte `1` is less than 255), so
the running total is 2 and the declared-length-mismatch error
`WrongLabelLength 4 2` is returned instead. -/
theorem claim_C1_counterexample :
    encodeTXTSegments [[97], [98]] = [1, 97, 1, 98] ∧
    TXT.read 4 (encodeTXTSegments [[97], [98]]) =
      .error (.WrongLabelLength 4 2) := by
  constructor
  · rfl
  · decide

/-- Claim C1 (amended): round-trip framing holds for a sequence
consisting of exactly one content byte string of length at most 254:
encoding it as one length-prefixed segment and calling `TXT::read` with
declared length equal to the exact total byte count of the encoding
succeeds and returns the content, modulo UTF-8 replacement-character
substitution for invalid byte sequences. -/
theorem claim_C1 (s : List Byte) (h : s.length ≤ 254) :
    TXT.read (s.length + 1) (encodeTXTSegments [s]) = .ok ⟨utf8Lossy s⟩ := by
  have hval : ((s.length : Byte) : Nat) = s.length := by
    rw [Fin.val_natCast]
    exact Nat.mod_eq_of_lt (by omega)
  have henc : encodeTXTSegments [s] = (s.length : Byte) :: s := by
    simp [encodeTXTSegments]
  have hrb : readBytes ((s.length : Byte) : Nat) s = some (s, []) := by
    rw [hval]
    simpa using readBytes_append s []
  have hloop := readTXTLoop_break (s.length + 1) (s.length : Byte) s [] 0 s [] hrb
    (by rw [hval]; omega)
  rw [henc]
  unfold TXT.read
  rw [show ((s.length : Byte) :: s).length + 1 = (s.length + 1) + 1 by simp]
  rw [hloop, hval]
  simp [Nat.mod_eq_of_lt (show 0 + s.length + 1 < 65536 by omega)]
  omega

/-- Claim C1 (witness for the amended theorem), at the concrete content
string `[116, 120, 116]`. -/
theorem claim_C1_witness :
    TXT.read 4 (encodeTXTSegments [[116, 120, 116]]) =
      .ok ⟨utf8Lossy [116, 120, 116]⟩ :=
  claim_C1 [116, 120, 116] (by decide)

/-- Claim C2: whenever the segment loop of `TXT::read` completes on the
input buffer (yielding an accumulator, a running total, and the unread
remainder) but the running total differs from the caller's declared
length, `TXT::read` returns the declared-length-mismatch error carrying
the declared value and the running total — in particular it never
returns a successful value when the two lengths differ. -/
theorem claim_C2 (len : Nat) (cs buf : List Byte) (total : Nat) (rem : List Byte)
    (hloop : readTXTLoop (cs.length + 1) cs [] 0 = some (buf, total, rem))
    (hne : len ≠ total) :
    TXT.read len cs = .error (.WrongLabelLength len total) := by
  unfold TXT.read
  rw [hloop]
  simp [hne]

/-- Claim C2 (witness), at the buffer `[1, 97]` (one 1-byte segment,
running total 2) with declared length 5. -/
theorem claim_C2_witness :
    TXT.read 5 [1, 97] = .error (.WrongLabelLength 5 2) :=
  claim_C2 5 [1, 97] [97] 2 [] (by decide) (by decide)

/-- Claim C3: on the empty input buffer with declared length 0,
`TXT::read` still attempts to read the first length byte and therefore
fails with the insufficient-input error; declared length 0 is not
special-cased into a successful empty text value. -/
theorem claim_C3 : TXT.read 0 [] = .error .ioError := by decide

/-- Claim C5: on the input buffer consisting of a single zero-length
segment (the single byte `0x00`) with declared length 1, `TXT::read`
succeeds: the segment loop ends with running total 1, and the decoded
text value is the empty string. -/
theorem claim_C5 :
    readTXTLoop 2 [0] [] 0 = some ([], 1, []) ∧
    TXT.read 1 [0] = .ok ⟨[]⟩ := by
  constructor
  · decide
  · decide

/-- Claim C6: whenever the segment loop runs out of input mid-segment —
at a length byte or partway through the content bytes a length byte
promised — `TXT::read` propagates the cursor's insufficient-input
failure and returns no partial value, whatever the declared length; in
particular the input `[0x06, 0x74]` (which claims 6 content bytes but
supplies 1) with declared length 23 fails with insufficient-input. -/
theorem claim_C6 :
    (∀ (len : Nat) (cs : List Byte),
        readTXTLoop (cs.length + 1) cs [] 0 = none →
        TXT.read len cs = .error .ioError) ∧
    TXT.read 23 [0x06, 0x74] = .error .ioError := by
  constructor
  · intro len cs h
    unfold TXT.read
    rw [h]
  · decide

/-- Claim C6 (witness): the general conjunct applied to the concrete
buffer `[5]`, whose length byte promises 5 content bytes but supplies
none. -/
theorem claim_C6_witness : TXT.read 6 [5] = .error .ioError :=
  claim_C6.1 6 [5] (by decide)

/-- When the segment loop completes, the result of `TXT::read` is the
post-loop comparison of the declared length against the final running
total. -/
theorem read_eq_of_loop (len : Nat) (cs buf : List Byte) (total : Nat) (rem : List Byte)
    (hloop : readTXTLoop (cs.length + 1) cs [] 0 = some (buf, total, rem)) :
    TXT.read len cs =
      if len = total then .ok ⟨utf8Lossy buf⟩
      else .error (.WrongLabelLength len total) := by
  unfold TXT.read
  rw [hloop]

/-- Claim C7: length validation happens only after the segment loop
completes.  Whenever the loop completes on the input buffer, the result
of `TXT::read`, for every declared length, is decided purely by
comparing the declared length with the final running total — success
with the reconstructed text on equality, the mismatch error otherwise;
there is no mid-loop abort for declared lengths that intermediate totals
already exceed. -/
theorem claim_C7 (len : Nat) (cs buf : List Byte) (total : Nat) (rem : List Byte)
    (hloop : readTXTLoop (cs.length + 1) cs [] 0 = some (buf, total, rem)) :
    TXT.read len cs =
      if len = total then .ok ⟨utf8Lossy buf⟩
      else .error (.WrongLabelLength len total) :=
  read_eq_of_loop len cs buf total rem hloop

/-- Claim C7 (witness): on the buffer of one maximal segment followed by
a zero-length segment, with declared length 1, the intermediate running
total 256 already exceeds the declared length after the first segment,
yet the loop finishes (final total 257) and only then reports the
mismatch. -/
theorem claim_C7_witness :
    TXT.read 1 ((255 : Byte) :: (List.replicate 255 0 ++ [0])) =
      .error (.WrongLabelLength 1 257) := by
  have h := claim_C7 1 ((255 : Byte) :: (List.replicate 255 0 ++ [0]))
    (List.replicate 255 0) 257 [] (by decide)
  simpa using h

/-- Claim C8: text conversion in `TXT::read` is lossy and total — the
accumulated content bytes are always turned into text by the total
UTF-8-with-replacement decoding, so the content bytes' values can never
make `TXT::read` fail: every outcome is either the insufficient-input
error, the declared-length-mismatch error, or success carrying exactly
the lossy UTF-8 decoding of the accumulated bytes. -/
theorem claim_C8 (len : Nat) (cs : List Byte) :
    TXT.read len cs = .error .ioError ∨
    (∃ total, len ≠ total ∧
        TXT.read len cs = .error (.WrongLabelLength len total)) ∨
    (∃ buf total rem,
        readTXTLoop (cs.length + 1) cs [] 0 = some (buf, total, rem) ∧
        TXT.read len cs = .ok ⟨utf8Lossy buf⟩) := by
  cases hloop : readTXTLoop (cs.length + 1) cs [] 0 with
  | none =>
    left
    unfold TXT.read
    rw [hloop]
  | some res =>
    obtain ⟨buf, total, rem⟩ := res
    by_cases hlen : len = total
    · right; right
      exact ⟨buf, total, rem, rfl, by unfold TXT.read; rw [hloop]; simp [hlen]⟩
    · right; left
      exact ⟨total, hlen, by unfold TXT.read; rw [hloop]; simp [hlen]⟩

/-- Claim C9: `TXT::read` consumes only the segment sequence up to and
including the first segment whose length byte is less than 255.  If the
segment loop consumes a buffer `p` exactly, then for any two extensions
of `p` and any declared length, `TXT::read` returns the same result:
bytes after the terminating segment never affect the outcome. -/
theorem claim_C9 (p buf : List Byte) (total : Nat)
    (hp : readTXTLoop (p.length + 1) p [] 0 = some (buf, total, []))
    (len : Nat) (s1 s2 : List Byte) :
    TXT.read len (p ++ s1) = TXT.read len (p ++ s2) := by
  have h1 : readTXTLoop ((p ++ s1).length + 1) (p ++ s1) [] 0 = some (buf, total, s1) :=
    readTXTLoop_mono (by simp) (readTXTLoop_extend hp s1)
  have h2 : readTXTLoop ((p ++ s2).length + 1) (p ++ s2) [] 0 = some (buf, total, s2) :=
    readTXTLoop_mono (by simp) (readTXTLoop_extend hp s2)
  unfold TXT.read
  rw [h1, h2]

/-- Claim C9 (witness): the buffer `[1, 97]` is one complete segment;
appending the unrelated suffixes `[9]` and `[7, 7]` gives the same
decode result. -/
theorem claim_C9_witness :
    TXT.read 2 ([1, 97] ++ [9]) = TXT.read 2 ([1, 97] ++ [7, 7]) :=
  claim_C9 [1, 97] [97] 2 (by decide) 2 [9] [7, 7]

/-- The loop on an empty cursor always fails: the read of the next
length byte has no byte to read. -/
theorem readTXTLoop_nil (fuel : Nat) (buf : List Byte) (total : Nat) :
    readTXTLoop fuel [] buf total = none := by
  cases fuel <;> simp [readTXTLoop, readU8]

/-- Claim C4: a length byte of exactly 255 always triggers continuation.
For every 255-byte content block: (i) after reading the segment
`255 :: content`, the loop goes on to read another segment from the
remaining cursor, whatever the accumulator and whatever the running
total (in particular however it compares to any declared length); and
(ii) if the buffer ends immediately after that segment, `TXT::read`
fails with the insufficient-input error for every declared length,
never with a successful truncated result. -/
theorem claim_C4 (content : List Byte) (h : content.length = 255) :
    (∀ (fuel : Nat) (rest buf : List Byte) (total : Nat),
        readTXTLoop (fuel + 1) ((255 : Byte) :: content ++ rest) buf total =
          readTXTLoop fuel rest (buf ++ content) ((total + 256) % 65536)) ∧
    (∀ len : Nat, TXT.read len ((255 : Byte) :: content) = .error .ioError) := by
  have hval : ((255 : Byte) : Nat) = 255 := rfl
  have hcont : ∀ (fuel : Nat) (rest buf : List Byte) (total : Nat),
      readTXTLoop (fuel + 1) ((255 : Byte) :: content ++ rest) buf total =
        readTXTLoop fuel rest (buf ++ content) ((total + 256) % 65536) := by
    intro fuel rest buf total
    rw [List.cons_append]
    have hrb : readBytes ((255 : Byte) : Nat) (content ++ rest) = some (content, rest) := by
      rw [hval, ← h]
      exact readBytes_append content rest
    rw [readTXTLoop_continue fuel 255 (content ++ rest) buf total content rest hrb
      (by rw [hval]; omega)]
    rw [hval]
  refine ⟨hcont, ?_⟩
  intro len
  have h0 : readTXTLoop (((255 : Byte) :: content).length + 1) ((255 : Byte) :: content) [] 0 =
      none := by
    rw [show ((255 : Byte) :: content).length + 1 = 256 + 1 by simp [h]]
    have hc := hcont 256 [] [] 0
    rw [List.append_nil] at hc
    rw [hc, readTXTLoop_nil]
  unfold TXT.read
  rw [h0]

/-- Claim C4 (witness): both conjuncts at the concrete 255-byte content
block of zero bytes (with one further zero-length segment appended for
the continuation conjunct, and declared length 261 for the truncation
conjunct). -/
theorem claim_C4_witness :
    readTXTLoop 2 ((255 : Byte) :: List.replicate 255 0 ++ [0]) [] 0 =
      readTXTLoop 1 [0] ([] ++ List.replicate 255 0) ((0 + 256) % 65536) ∧
    TXT.read 261 ((255 : Byte) :: List.replicate 255 0) = .error .ioError :=
  ⟨(claim_C4 (List.replicate 255 0) (by simp)).1 1 [0] [] 0,
   (claim_C4 (List.replicate 255 0) (by simp)).2 261⟩

/-- The 65537-byte buffer that makes the 16-bit running total wrap: 256
maximal segments (each adding 256 to the total, for 65536 in all, which
is 0 modulo `2 ^ 16`) followed by one zero-length segment (adding 1). -/
def wrapBuf : List Byte := (List.replicate 256 seg255).flatten ++ [0]

/-- Claim C10: the running total is accumulated in 16-bit arithmetic, so
the final comparison is performed modulo `2 ^ 16`.  The 65537-byte
buffer `wrapBuf` has a segment sequence consuming all 65537 of its
bytes, yet its wrapped running total is `65537 % 65536 = 1`, so
`TXT::read` with declared length 1 succeeds (returning the 65280
accumulated zero content bytes as text) even though the bytes consumed
far exceed the declared RDATA length. -/
theorem claim_C10 :
    wrapBuf.length = 65537 ∧
    TXT.read 1 wrapBuf = .ok ⟨List.replicate 65280 0⟩ := by
  have hlen : wrapBuf.length = 65537 := by
    unfold wrapBuf
    rw [List.length_append, length_flatten_replicate_seg255]
    norm_num
  refine ⟨hlen, ?_⟩
  have hchain := readTXTLoop_replicate_seg255 256 65281 [0] [] 0 (by omega)
  have hlast : readTXTLoop (65281 + 1) [0] ([] ++ List.replicate (255 * 256) 0)
      ((0 + 256 * 256) % 65536) = some (List.replicate 65280 0, 1, []) := by
    have hrb : readBytes ((0 : Byte) : Nat) ([] : List Byte) = some ([], []) := rfl
    rw [readTXTLoop_break 65281 0 [] ([] ++ List.replicate (255 * 256) 0)
      ((0 + 256 * 256) % 65536) [] [] hrb (by norm_num)]
    norm_num
  have hloop : readTXTLoop (wrapBuf.length + 1) wrapBuf [] 0 =
      some (List.replicate 65280 0, 1, []) := by
    rw [hlen, show (65537 : Nat) + 1 = 256 + (65281 + 1) by norm_num]
    rw [show wrapBuf = (List.replicate 256 seg255).flatten ++ [0] from rfl]
    rw [hchain, hlast]
  have h := read_eq_of_loop 1 wrapBuf (List.replicate 65280 0) 1 [] hloop
  rw [if_pos rfl, utf8Lossy_replicate_zero] at h
  exact h
